import Mathlib

/-
Verification of the ns-3 error-model component (src/common/error-model.h).

The repository provides the class declarations and their documentation in
error-model.h; the member-function bodies live in error-model.cc, which is
not part of the provided sources.  Wherever a body is missing, the
corresponding Lean definition is marked `Modelled from the spec:` and follows
the specification's description of that operation (together with the
behavioural documentation comments that error-model.h itself carries).

Modelling choices:
- a packet is abstracted to its stable unique identifier and its byte length,
  the two attributes the models consult;
- the uniform-variate source is a stream of rationals together with a cursor,
  so that the number of draws an operation consumes is observable;
- rates and variates are rationals (exact arithmetic stands in for IEEE
  doubles; no claim here depends on rounding);
- the C++ virtual dispatch (ErrorModel::IsCorrupt calling the subclass
  DoCorrupt) is mirrored by giving each concrete model its own IsCorrupt
  built from the shared disabled-short-circuit pattern.
-/

namespace NS3

/-- External packet handle: the core only reads a stable unique identifier
and a byte length (spec section 6). -/
structure Packet where
  uid : Nat
  size : Nat
deriving DecidableEq

/-- Uniform-variate source: a stream of values together with the position of
the next draw.  The source contract (spec section 6) promises values in
[0,1); `seq` itself is unconstrained so that theorems can state exactly which
hypotheses on the source they need. -/
structure Rng where
  seq : Nat → ℚ
  idx : Nat

/-- Base class state: the enabled flag shared by all error models. -/
structure ErrorModel where
  m_enable : Bool

/-- Modelled from the spec: body of ErrorModel::Enable (error-model.cc absent
from the sources); sets the enabled flag (spec 4.1). -/
def ErrorModel.Enable (m : ErrorModel) : ErrorModel :=
  { m with m_enable := true }

/-- Modelled from the spec: body of ErrorModel::Disable (error-model.cc
absent); clears the enabled flag (spec 4.1). -/
def ErrorModel.Disable (m : ErrorModel) : ErrorModel :=
  { m with m_enable := false }

/-- Modelled from the spec: body of ErrorModel::IsEnabled (error-model.cc
absent); accessor with no side effects (spec 4.1). -/
def ErrorModel.IsEnabled (m : ErrorModel) : Bool :=
  m.m_enable

/-- Modelled from the spec: body of the ErrorModel constructor
(error-model.cc absent); spec section 6 requires that the host obtain a
ready-to-use default instance without per-field configuration, so default
construction yields an enabled model. -/
def ErrorModel.mkDefault : ErrorModel :=
  { m_enable := true }

/-- The ErrorUnit enumeration of error-model.h. -/
inductive ErrorUnit where
  | EU_BIT
  | EU_BYTE
  | EU_PKT
deriving DecidableEq

export ErrorUnit (EU_BIT EU_BYTE EU_PKT)

/-- RateErrorModel state: inherits the enabled flag and adds the granularity
unit, the per-unit rate and the random source (error-model.h lines 176-179;
the source is held by handle, modelled here as a value threaded through the
corrupt-test). -/
structure RateErrorModel extends ErrorModel where
  m_unit : ErrorUnit
  m_rate : ℚ
  m_ranvar : Rng

def RateErrorModel.Enable (m : RateErrorModel) : RateErrorModel :=
  { m with m_enable := true }

def RateErrorModel.Disable (m : RateErrorModel) : RateErrorModel :=
  { m with m_enable := false }

def RateErrorModel.IsEnabled (m : RateErrorModel) : Bool :=
  m.m_enable

def RateErrorModel.GetUnit (m : RateErrorModel) : ErrorUnit :=
  m.m_unit

def RateErrorModel.SetUnit (m : RateErrorModel) (u : ErrorUnit) : RateErrorModel :=
  { m with m_unit := u }

def RateErrorModel.GetRate (m : RateErrorModel) : ℚ :=
  m.m_rate

/-- Modelled from the spec: body of RateErrorModel::SetRate (error-model.cc
absent); spec sections 4.2 and 7 fix the policy for a rate outside [0,1] as
reject at configuration time (fail fast), so the setter is fallible and
leaves no model behind on a bad rate. -/
def RateErrorModel.SetRate (m : RateErrorModel) (rate : ℚ) : Option RateErrorModel :=
  if rate < 0 ∨ 1 < rate then none else some { m with m_rate := rate }

/-- A run of Bernoulli trials against consecutive draws of the source:
trial after trial, draw one variate and succeed when it is ≤ rate, stopping
at the first success (spec 4.2 BYTE: short-circuit on first success). -/
def runTrials (rate : ℚ) (r : Rng) : Nat → Bool × Rng
  | 0 => (false, r)
  | Nat.succ n =>
    if r.seq r.idx ≤ rate then (true, { r with idx := r.idx + 1 })
    else runTrials rate { r with idx := r.idx + 1 } n

/-- Modelled from the spec: body of RateErrorModel::DoCorruptPkt
(error-model.cc absent); spec 4.2 PACKET: draw one uniform variate u, corrupt
iff u ≤ rate, a single whole-packet Bernoulli trial. -/
def RateErrorModel.DoCorruptPkt (m : RateErrorModel) (_p : Packet) : Bool × RateErrorModel :=
  (decide (m.m_ranvar.seq m.m_ranvar.idx ≤ m.m_rate),
   { m with m_ranvar := { m.m_ranvar with idx := m.m_ranvar.idx + 1 } })

/-- Modelled from the spec: body of RateErrorModel::DoCorruptByte
(error-model.cc absent); spec 4.2 BYTE: n = byte length, corrupt iff at least
one of n independent per-byte Bernoulli(rate) trials succeeds, evaluated
trial by trial. -/
def RateErrorModel.DoCorruptByte (m : RateErrorModel) (p : Packet) : Bool × RateErrorModel :=
  let r := runTrials m.m_rate m.m_ranvar p.size
  (r.1, { m with m_ranvar := r.2 })

/-- Modelled from the spec: body of RateErrorModel::DoCorruptBit
(error-model.cc absent); spec 4.2 BIT: same composition as BYTE over
n * 8 per-bit trials. -/
def RateErrorModel.DoCorruptBit (m : RateErrorModel) (p : Packet) : Bool × RateErrorModel :=
  let r := runTrials m.m_rate m.m_ranvar (p.size * 8)
  (r.1, { m with m_ranvar := r.2 })

/-- Modelled from the spec: body of RateErrorModel::DoCorrupt
(error-model.cc absent); spec 4.2: the corrupt-test algorithm is keyed on
the configured unit. -/
def RateErrorModel.DoCorrupt (m : RateErrorModel) (p : Packet) : Bool × RateErrorModel :=
  match m.m_unit with
  | EU_PKT => m.DoCorruptPkt p
  | EU_BYTE => m.DoCorruptByte p
  | EU_BIT => m.DoCorruptBit p

/-- Modelled from the spec: body of ErrorModel::IsCorrupt (error-model.cc
absent); spec 4.1: when enabled is false return false immediately with no
further work, otherwise delegate to the model-specific corrupt-test.
Instantiated here for RateErrorModel. -/
def RateErrorModel.IsCorrupt (m : RateErrorModel) (p : Packet) : Bool × RateErrorModel :=
  if m.m_enable then m.DoCorrupt p else (false, m)

/-- Modelled from the spec: body of RateErrorModel::DoReset (error-model.cc
absent); spec 4.2 and the error-model.h comment at line 133 agree that Reset
on this model does nothing (the model is memoryless). -/
def RateErrorModel.Reset (m : RateErrorModel) : RateErrorModel :=
  m

/-- Modelled from the spec: body of the RateErrorModel constructor
(error-model.cc absent); spec section 6: default construction yields a
ready-to-use enabled model; the random source is supplied by the host. -/
def RateErrorModel.mkDefault (r : Rng) : RateErrorModel :=
  { m_enable := true, m_unit := EU_BYTE, m_rate := 0, m_ranvar := r }

/-- ListErrorModel state: inherits the enabled flag and adds the list of
packet uids to error (error-model.h line 230). -/
structure ListErrorModel extends ErrorModel where
  m_packetList : List Nat

def ListErrorModel.Enable (m : ListErrorModel) : ListErrorModel :=
  { m with m_enable := true }

def ListErrorModel.Disable (m : ListErrorModel) : ListErrorModel :=
  { m with m_enable := false }

def ListErrorModel.IsEnabled (m : ListErrorModel) : Bool :=
  m.m_enable

/-- Modelled from the spec: body of ListErrorModel::GetList (error-model.cc
absent); error-model.h line 213 documents the return as a copy of the
underlying list, and the C++ signature returns the list by value. -/
def ListErrorModel.GetList (m : ListErrorModel) : List Nat :=
  m.m_packetList

/-- Modelled from the spec: body of ListErrorModel::SetList (error-model.cc
absent); error-model.h line 219 documents that this method overwrites any
previously provided list (spec 4.3: full replace, no merge). -/
def ListErrorModel.SetList (m : ListErrorModel) (packetlist : List Nat) : ListErrorModel :=
  { m with m_packetList := packetlist }

/-- Modelled from the spec: body of ListErrorModel::DoCorrupt
(error-model.cc absent); spec 4.3 and the error-model.h comment at line 188:
each call walks the list, corrupt iff the packet uid is present. -/
def ListErrorModel.DoCorrupt (m : ListErrorModel) (p : Packet) : Bool × ListErrorModel :=
  (m.m_packetList.contains p.uid, m)

/-- Modelled from the spec: ErrorModel::IsCorrupt instantiated for
ListErrorModel (see RateErrorModel.IsCorrupt). -/
def ListErrorModel.IsCorrupt (m : ListErrorModel) (p : Packet) : Bool × ListErrorModel :=
  if m.m_enable then m.DoCorrupt p else (false, m)

/-- Modelled from the spec: body of ListErrorModel::DoReset (error-model.cc
absent); spec 4.3 and the error-model.h comment at line 200 agree that Reset
on this model clears the list. -/
def ListErrorModel.Reset (m : ListErrorModel) : ListErrorModel :=
  { m with m_packetList := [] }

/-- Modelled from the spec: body of the ListErrorModel constructor
(error-model.cc absent); spec section 6: default construction yields a
ready-to-use enabled model with an empty target list. -/
def ListErrorModel.mkDefault : ListErrorModel :=
  { m_enable := true, m_packetList := [] }

/-
Supporting lemmas.
-/

/-- A run of trials succeeds exactly when some trial among the n scheduled
ones would succeed: the short-circuit changes only how many draws are
consumed, not the verdict. -/
theorem runTrials_fst_iff (rate : ℚ) :
    ∀ (n : Nat) (r : Rng),
      (runTrials rate r n).1 = true ↔ ∃ i < n, r.seq (r.idx + i) ≤ rate := by
  intro n
  induction n with
  | zero =>
    intro r
    simp [runTrials]
  | succ k ih =>
    intro r
    by_cases h : r.seq r.idx ≤ rate
    · simp only [runTrials, if_pos h]
      constructor
      · intro _
        exact ⟨0, Nat.succ_pos k, by simpa using h⟩
      · intro _
        trivial
    · simp only [runTrials, if_neg h]
      rw [ih]
      constructor
      · rintro ⟨i, hi, hle⟩
        refine ⟨i + 1, by omega, ?_⟩
        have hidx : r.idx + (i + 1) = r.idx + 1 + i := by omega
        rw [hidx]
        exact hle
      · rintro ⟨i, hi, hle⟩
        cases i with
        | zero =>
          exact absurd (by simpa using hle) h
        | succ j =>
          refine ⟨j, by omega, ?_⟩
          show r.seq (r.idx + 1 + j) ≤ rate
          have hidx : r.idx + 1 + j = r.idx + (j + 1) := by omega
          rw [hidx]
          exact hle

/-- Dispatch lemma: with the unit set to EU_PKT the corrupt-test runs the
whole-packet trial. -/
theorem DoCorrupt_eq_pkt (m : RateErrorModel) (p : Packet) (hu : m.m_unit = EU_PKT) :
    m.DoCorrupt p = m.DoCorruptPkt p := by
  unfold RateErrorModel.DoCorrupt
  rw [hu]

/-- Dispatch lemma: with the unit set to EU_BYTE the corrupt-test runs the
per-byte trials. -/
theorem DoCorrupt_eq_byte (m : RateErrorModel) (p : Packet) (hu : m.m_unit = EU_BYTE) :
    m.DoCorrupt p = m.DoCorruptByte p := by
  unfold RateErrorModel.DoCorrupt
  rw [hu]

/-- Dispatch lemma: with the unit set to EU_BIT the corrupt-test runs the
per-bit trials. -/
theorem DoCorrupt_eq_bit (m : RateErrorModel) (p : Packet) (hu : m.m_unit = EU_BIT) :
    m.DoCorrupt p = m.DoCorruptBit p := by
  unfold RateErrorModel.DoCorrupt
  rw [hu]

/-
Claim theorems.
-/

/-- C1: for any RateErrorModel or ListErrorModel on which Disable was called
(and not followed by Enable), IsCorrupt on any packet returns false and
returns the model wholly unchanged — no randomness consumed (the rate
model's source, cursor included, is intact) and no state touched; since the
statement quantifies over every list model and packet, it holds in
particular when the list holds the packet's uid. -/
theorem disabled_short_circuit (rm : RateErrorModel) (lm : ListErrorModel) (p : Packet) :
    rm.Disable.IsCorrupt p = (false, rm.Disable) ∧
    lm.Disable.IsCorrupt p = (false, lm.Disable) := by
  constructor <;>
    simp [RateErrorModel.IsCorrupt, ListErrorModel.IsCorrupt,
      RateErrorModel.Disable, ListErrorModel.Disable]

/-- C7: Reset is orthogonal to the enabled flag: on a RateErrorModel it
changes nothing at all (rate, unit and random source preserved), and on a
ListErrorModel it preserves the enabled flag, empties the target list, and
afterwards (before any new SetList) IsCorrupt is false on every packet —
whether the model is enabled or disabled. -/
theorem reset_orthogonal_to_enable (rm : RateErrorModel) (lm : ListErrorModel) (p : Packet) :
    rm.Reset = rm ∧
    lm.Reset.m_enable = lm.m_enable ∧
    lm.Reset.m_packetList = [] ∧
    (lm.Reset.IsCorrupt p).1 = false := by
  refine ⟨rfl, rfl, rfl, ?_⟩
  by_cases h : lm.m_enable <;>
    simp [ListErrorModel.IsCorrupt, ListErrorModel.DoCorrupt, ListErrorModel.Reset, h]

/-- C8: SetList fully replaces the previous contents: after any two
successive SetList calls, GetList returns exactly the argument of the most
recent call (in particular it is set-equal to it and holds nothing of the
earlier call), and after a single SetList, GetList returns exactly its
argument. -/
theorem setlist_replaces (m : ListErrorModel) (l1 l2 : List Nat) :
    ((m.SetList l1).SetList l2).GetList = l2 ∧
    (m.SetList l1).GetList = l1 :=
  ⟨rfl, rfl⟩

/-- C9: GetList returns a snapshot: extending the returned copy with a fresh
uid x produces a list holding x, while the model itself is untouched by the
query — IsCorrupt on a packet whose uid is present only in the mutated copy
returns false (whether enabled or not) and leaves the model unchanged. -/
theorem getlist_snapshot_isolation (m : ListErrorModel) (x : Nat) (sz : Nat)
    (hx : x ∉ m.m_packetList) :
    x ∈ x :: m.GetList ∧
    (m.IsCorrupt { uid := x, size := sz }).1 = false ∧
    (m.IsCorrupt { uid := x, size := sz }).2 = m := by
  refine ⟨List.mem_cons_self x _, ?_, ?_⟩ <;>
    by_cases h : m.m_enable <;>
      simp [ListErrorModel.IsCorrupt, ListErrorModel.DoCorrupt, h, hx]

/-- Fixture for the C9 witness: an enabled list model targeting uid 5. -/
def lmSnap : ListErrorModel :=
  { m_enable := true, m_packetList := [5] }

/-- Witness for C9 at a concrete input: uid 7 is absent from the stored
list, present in the mutated copy, and IsCorrupt still answers false. -/
theorem getlist_snapshot_isolation_witness :
    7 ∈ 7 :: lmSnap.GetList ∧
    (lmSnap.IsCorrupt { uid := 7, size := 0 }).1 = false ∧
    (lmSnap.IsCorrupt { uid := 7, size := 0 }).2 = lmSnap :=
  getlist_snapshot_isolation lmSnap 7 0 (by decide)

/-- C10: freshly default-constructed models are enabled — IsEnabled answers
true before any Enable or Disable call — and a default-constructed list
model can report a corrupt packet right away (after SetList, without any
explicit Enable). -/
theorem default_construction_enabled :
    ErrorModel.mkDefault.IsEnabled = true ∧
    (∀ r : Rng, (RateErrorModel.mkDefault r).IsEnabled = true) ∧
    ListErrorModel.mkDefault.IsEnabled = true ∧
    ((ListErrorModel.mkDefault.SetList [5]).IsCorrupt { uid := 5, size := 0 }).1 = true :=
  ⟨rfl, fun _ => rfl, rfl, rfl⟩

/-- C2: for an enabled RateErrorModel with unit BYTE, IsCorrupt on a packet
of n bytes answers true exactly when at least one of the n scheduled
per-byte Bernoulli(rate) trials succeeds (trial i compares the source's
draw at position idx + i against the rate); with unit BIT the same
composition runs over n * 8 per-bit trials; hence a zero-length packet
under BYTE or BIT is never corrupt. -/
theorem rate_byte_bit_trial_composition (m : RateErrorModel) (p : Packet)
    (he : m.m_enable = true) :
    (m.m_unit = EU_BYTE →
      ((m.IsCorrupt p).1 = true ↔
        ∃ i < p.size, m.m_ranvar.seq (m.m_ranvar.idx + i) ≤ m.m_rate)) ∧
    (m.m_unit = EU_BIT →
      ((m.IsCorrupt p).1 = true ↔
        ∃ i < p.size * 8, m.m_ranvar.seq (m.m_ranvar.idx + i) ≤ m.m_rate)) ∧
    ((m.m_unit = EU_BYTE ∨ m.m_unit = EU_BIT) → p.size = 0 →
      (m.IsCorrupt p).1 = false) := by
  have hbyte : m.m_unit = EU_BYTE →
      ((m.IsCorrupt p).1 = true ↔
        ∃ i < p.size, m.m_ranvar.seq (m.m_ranvar.idx + i) ≤ m.m_rate) := by
    intro hu
    have hd : m.IsCorrupt p = m.DoCorruptByte p := by
      simp [RateErrorModel.IsCorrupt, he, DoCorrupt_eq_byte m p hu]
    rw [hd]
    exact runTrials_fst_iff m.m_rate p.size m.m_ranvar
  have hbit : m.m_unit = EU_BIT →
      ((m.IsCorrupt p).1 = true ↔
        ∃ i < p.size * 8, m.m_ranvar.seq (m.m_ranvar.idx + i) ≤ m.m_rate) := by
    intro hu
    have hd : m.IsCorrupt p = m.DoCorruptBit p := by
      simp [RateErrorModel.IsCorrupt, he, DoCorrupt_eq_bit m p hu]
    rw [hd]
    exact runTrials_fst_iff m.m_rate (p.size * 8) m.m_ranvar
  refine ⟨hbyte, hbit, ?_⟩
  rintro (hu | hu) hz
  · cases hb : (m.IsCorrupt p).1 with
    | false => rfl
    | true =>
      obtain ⟨i, hi, _⟩ := (hbyte hu).mp hb
      rw [hz] at hi
      exact absurd hi (Nat.not_lt_zero i)
  · cases hb : (m.IsCorrupt p).1 with
    | false => rfl
    | true =>
      obtain ⟨i, hi, _⟩ := (hbit hu).mp hb
      rw [hz] at hi
      simp at hi

/-- Fixture: a source whose every draw is one half. -/
def rngHalf : Rng :=
  { seq := fun _ => 1 / 2, idx := 0 }

/-- Fixture for the C2 witness: enabled, BYTE unit, rate one. -/
def rmByte : RateErrorModel :=
  { m_enable := true, m_unit := EU_BYTE, m_rate := 1, m_ranvar := rngHalf }

/-- Witness for C2 at a concrete input: with rate 1 and a two-byte packet,
trial 0 already succeeds (the draw one half is ≤ 1), so IsCorrupt is true. -/
theorem rate_byte_bit_trial_composition_witness :
    (rmByte.IsCorrupt { uid := 1, size := 2 }).1 = true :=
  ((rate_byte_bit_trial_composition rmByte { uid := 1, size := 2 } rfl).1 rfl).mpr
    ⟨0, by norm_num, by norm_num [rmByte, rngHalf]⟩

/-- Fixture for the C3 witness: enabled, PACKET unit, rate one half. -/
def rmPkt : RateErrorModel :=
  { m_enable := true, m_unit := EU_PKT, m_rate := 1 / 2, m_ranvar := rngHalf }

/-- Fixture packet. -/
def pktA : Packet :=
  { uid := 3, size := 40 }

/-- Fixture packet differing from pktA in both uid and length. -/
def pktB : Packet :=
  { uid := 9, size := 0 }

/-- C3: for an enabled RateErrorModel with unit PACKET, IsCorrupt performs a
single whole-packet Bernoulli trial: the verdict is true exactly when the
source's next draw is ≤ rate, exactly one variate is consumed (the cursor
advances by one and the stream is untouched), and the outcome — verdict and
resulting state alike — does not depend on the packet's uid or length. -/
theorem rate_pkt_single_draw (m : RateErrorModel) (p q : Packet)
    (he : m.m_enable = true) (hu : m.m_unit = EU_PKT) :
    ((m.IsCorrupt p).1 = true ↔ m.m_ranvar.seq m.m_ranvar.idx ≤ m.m_rate) ∧
    (m.IsCorrupt p).2.m_ranvar.idx = m.m_ranvar.idx + 1 ∧
    (m.IsCorrupt p).2.m_ranvar.seq = m.m_ranvar.seq ∧
    m.IsCorrupt p = m.IsCorrupt q := by
  have hd : ∀ r : Packet, m.IsCorrupt r = m.DoCorruptPkt r := by
    intro r
    simp [RateErrorModel.IsCorrupt, he, DoCorrupt_eq_pkt m r hu]
  refine ⟨?_, ?_, ?_, ?_⟩
  · rw [hd p]
    simp [RateErrorModel.DoCorruptPkt]
  · rw [hd p]
    rfl
  · rw [hd p]
    rfl
  · rw [hd p, hd q]
    rfl

/-- Witness for C3 at a concrete input: the conclusion instantiated at
rmPkt with two packets of different uid and length. -/
theorem rate_pkt_single_draw_witness :
    ((rmPkt.IsCorrupt pktA).1 = true ↔
      rmPkt.m_ranvar.seq rmPkt.m_ranvar.idx ≤ rmPkt.m_rate) ∧
    (rmPkt.IsCorrupt pktA).2.m_ranvar.idx = rmPkt.m_ranvar.idx + 1 ∧
    (rmPkt.IsCorrupt pktA).2.m_ranvar.seq = rmPkt.m_ranvar.seq ∧
    rmPkt.IsCorrupt pktA = rmPkt.IsCorrupt pktB :=
  rate_pkt_single_draw rmPkt pktA pktB rfl rfl

/-- C4: for an enabled ListErrorModel the verdict is pure membership: true
exactly when the packet's uid is in the stored list (so false for every uid
outside it), and any two enabled list models whose stored lists hold the
same members — whatever the order or duplication — give identical verdicts
on every packet. -/
theorem list_membership_verdict (m m2 : ListErrorModel) (p : Packet)
    (he : m.m_enable = true) (he2 : m2.m_enable = true)
    (hset : ∀ x, x ∈ m.m_packetList ↔ x ∈ m2.m_packetList) :
    ((m.IsCorrupt p).1 = true ↔ p.uid ∈ m.m_packetList) ∧
    (m.IsCorrupt p).1 = (m2.IsCorrupt p).1 := by
  have hmem : ∀ mm : ListErrorModel, mm.m_enable = true →
      ((mm.IsCorrupt p).1 = true ↔ p.uid ∈ mm.m_packetList) := by
    intro mm hmm
    simp [ListErrorModel.IsCorrupt, ListErrorModel.DoCorrupt, hmm, List.elem_iff]
  refine ⟨hmem m he, ?_⟩
  apply Bool.coe_iff_coe.mp
  rw [hmem m he, hmem m2 he2]
  exact hset p.uid

/-- Fixture for the C4 witness: enabled list model over [5, 9, 100]. -/
def lmA : ListErrorModel :=
  { m_enable := true, m_packetList := [5, 9, 100] }

/-- Fixture for the C4 witness: the same members stored in another order
with a duplicate. -/
def lmB : ListErrorModel :=
  { m_enable := true, m_packetList := [100, 9, 5, 5] }

/-- Witness for C4 at a concrete input: uid 9 is flagged, and the reordered
duplicated list gives the same verdict. -/
theorem list_membership_verdict_witness :
    (((lmA.IsCorrupt { uid := 9, size := 1 }).1 = true ↔
        9 ∈ lmA.m_packetList) ∧
      (lmA.IsCorrupt { uid := 9, size := 1 }).1 =
        (lmB.IsCorrupt { uid := 9, size := 1 }).1) ∧
    (lmA.IsCorrupt { uid := 6, size := 1 }).1 = false :=
  ⟨list_membership_verdict lmA lmB { uid := 9, size := 1 } rfl rfl
      (by intro x; simp [lmA, lmB]; tauto),
    by decide⟩

/-- C6: SetRate rejects any rate outside [0,1] at configuration time: the
call fails (returns none, producing no configured model at all), so the
model is never left holding an out-of-range rate. -/
theorem setrate_rejects_out_of_range (m : RateErrorModel) (rate : ℚ)
    (h : rate < 0 ∨ 1 < rate) :
    m.SetRate rate = none ∧ ∀ m2, m.SetRate rate ≠ some m2 := by
  have hn : m.SetRate rate = none := by
    simp [RateErrorModel.SetRate, h]
  exact ⟨hn, fun m2 hc => by rw [hn] at hc; exact Option.noConfusion hc⟩

/-- Witness for C6 at a concrete input: rate 2 is rejected. -/
theorem setrate_rejects_out_of_range_witness :
    rmPkt.SetRate 2 = none ∧ ∀ m2, rmPkt.SetRate 2 ≠ some m2 :=
  setrate_rejects_out_of_range rmPkt 2 (Or.inr (by norm_num))

/-- Fixture: a source whose every draw is exactly zero — a value the source
contract (values in [0,1)) allows. -/
def rngZero : Rng :=
  { seq := fun _ => 0, idx := 0 }

/-- Fixture for the C5 counterexample: enabled, PACKET unit, rate zero, fed
by the all-zero source. -/
def rmZeroRate : RateErrorModel :=
  { m_enable := true, m_unit := EU_PKT, m_rate := 0, m_ranvar := rngZero }

/-- C5 counterexample: the claim as stated fails. With rate 0, an enabled
PACKET-unit model, and a source draw of exactly 0 (legal under the [0,1)
source contract), the whole-packet trial u ≤ rate succeeds (0 ≤ 0), so
IsCorrupt answers true where the claim demands false. -/
theorem rate_zero_counterexample :
    rmZeroRate.m_enable = true ∧
    rmZeroRate.m_rate = 0 ∧
    (rmZeroRate.IsCorrupt pktA).1 = true :=
  ⟨rfl, rfl, rfl⟩

/-- C5 amended: for an enabled RateErrorModel whose source draws are
strictly between 0 and 1, rate 0 means never corrupt (any unit, any
length); rate 1 with unit BYTE or BIT and nonzero length means always
corrupt; and rate 1 with unit PACKET means always corrupt.  The strict
positivity of the draws is what the original claim silently assumed: at a
draw of exactly 0 the rate-0 case fails (see the counterexample). -/
theorem rate_edge_cases_amended (m : RateErrorModel) (p : Packet)
    (he : m.m_enable = true)
    (hsrc : ∀ i, 0 < m.m_ranvar.seq i ∧ m.m_ranvar.seq i < 1) :
    (m.m_rate = 0 → (m.IsCorrupt p).1 = false) ∧
    (m.m_rate = 1 → (m.m_unit = EU_BYTE ∨ m.m_unit = EU_BIT) → 0 < p.size →
      (m.IsCorrupt p).1 = true) ∧
    (m.m_rate = 1 → m.m_unit = EU_PKT → (m.IsCorrupt p).1 = true) := by
  refine ⟨?_, ?_, ?_⟩
  · intro hr
    cases hb : (m.IsCorrupt p).1 with
    | false => rfl
    | true =>
      exfalso
      cases hu : m.m_unit with
      | EU_PKT =>
        have hd : m.IsCorrupt p = m.DoCorruptPkt p := by
          simp [RateErrorModel.IsCorrupt, he, DoCorrupt_eq_pkt m p hu]
        rw [hd] at hb
        have hle : m.m_ranvar.seq m.m_ranvar.idx ≤ m.m_rate := by
          simpa [RateErrorModel.DoCorruptPkt] using hb
        rw [hr] at hle
        exact absurd hle (not_le.mpr (hsrc m.m_ranvar.idx).1)
      | EU_BYTE =>
        have hd : m.IsCorrupt p = m.DoCorruptByte p := by
          simp [RateErrorModel.IsCorrupt, he, DoCorrupt_eq_byte m p hu]
        rw [hd] at hb
        obtain ⟨i, _, hle⟩ := (runTrials_fst_iff m.m_rate p.size m.m_ranvar).mp hb
        rw [hr] at hle
        exact absurd hle (not_le.mpr (hsrc _).1)
      | EU_BIT =>
        have hd : m.IsCorrupt p = m.DoCorruptBit p := by
          simp [RateErrorModel.IsCorrupt, he, DoCorrupt_eq_bit m p hu]
        rw [hd] at hb
        obtain ⟨i, _, hle⟩ :=
          (runTrials_fst_iff m.m_rate (p.size * 8) m.m_ranvar).mp hb
        rw [hr] at hle
        exact absurd hle (not_le.mpr (hsrc _).1)
  · intro hr hu hs
    have hle : m.m_ranvar.seq (m.m_ranvar.idx + 0) ≤ m.m_rate := by
      rw [hr]
      exact le_of_lt (hsrc _).2
    rcases hu with hu | hu
    · have hd : m.IsCorrupt p = m.DoCorruptByte p := by
        simp [RateErrorModel.IsCorrupt, he, DoCorrupt_eq_byte m p hu]
      rw [hd]
      exact (runTrials_fst_iff m.m_rate p.size m.m_ranvar).mpr ⟨0, hs, hle⟩
    · have hd : m.IsCorrupt p = m.DoCorruptBit p := by
        simp [RateErrorModel.IsCorrupt, he, DoCorrupt_eq_bit m p hu]
      rw [hd]
      exact (runTrials_fst_iff m.m_rate (p.size * 8) m.m_ranvar).mpr
        ⟨0, Nat.mul_pos hs (by norm_num), hle⟩
  · intro hr hu
    have hd : m.IsCorrupt p = m.DoCorruptPkt p := by
      simp [RateErrorModel.IsCorrupt, he, DoCorrupt_eq_pkt m p hu]
    rw [hd]
    simp only [RateErrorModel.DoCorruptPkt, decide_eq_true_eq]
    rw [hr]
    exact le_of_lt (hsrc _).2

/-- Fixture for the C5 amended witness: enabled, PACKET unit, rate zero,
fed by the all-one-half source. -/
def rmZeroHalf : RateErrorModel :=
  { m_enable := true, m_unit := EU_PKT, m_rate := 0, m_ranvar := rngHalf }

/-- Witness for the amended C5 at a concrete input: draws of one half are
strictly inside (0,1), and with rate 0 the verdict is false. -/
theorem rate_edge_cases_amended_witness :
    (rmZeroHalf.IsCorrupt pktA).1 = false :=
  (rate_edge_cases_amended rmZeroHalf pktA rfl
    (fun i => by constructor <;> norm_num [rmZeroHalf, rngHalf])).1 rfl

end NS3
